import Mathlib

/-!  Verification of the DevTools protocol bridge of
`shell/browser/ui/inspectable_web_contents_impl.cc`: outbound message
chunking, inbound envelope parsing and dispatch, the attach/detach
lifecycle, and the network resource loader with exponential backoff.

Strings from the C++ code are embedded as `String`/`List Char`;
`base::Value` trees as the inductive `JValue`; `base::TimeDelta` as exact
rational microsecond counts.  -/

namespace Electron

/-! ### JSON values (`base::Value`) -/

/-- A `base::Value` tree, as produced by `base::JSONReader`.  Dictionaries
are association lists of key/value pairs. -/
inductive JValue where
  | null : JValue
  | bool (b : Bool) : JValue
  | int (n : Int) : JValue
  | num (q : ℚ) : JValue
  | str (s : String) : JValue
  | list (xs : List JValue) : JValue
  | dict (es : List (String × JValue)) : JValue

/-- Key lookup in a `base::DictionaryValue`: the value stored under `key`
(first occurrence), as used by `HasKey` / `GetString` / `GetList` for the
dot-free keys "id", "method" and "params". -/
def lookupJ (key : String) : List (String × JValue) → Option JValue
  | [] => none
  | (k, v) :: es => if k = key then some v else lookupJ key es

/-! ### Outbound chunking (`DispatchProtocolMessage`) -/

/-- Modelled from the spec: the transport's maximum message size
(`IPC::Channel::kMaximumMessageSize`, declared outside this repository);
the spec fixes only the ratio "transport's maximum message size ÷ 4". -/
def kMaximumMessageSize : ℕ := 128 * 1024 * 1024

/-- `kMaxMessageChunkSize = IPC::Channel::kMaximumMessageSize / 4` (line 90). -/
def kMaxMessageChunkSize : ℕ := kMaximumMessageSize / 4

/-- A call delivered to the frontend document by `DispatchProtocolMessage`:
either a single-shot `DevToolsAPI.dispatchMessage`, or a
`DevToolsAPI.dispatchMessageChunk` carrying the chunk payload and, on the
first chunk only, the total message length. -/
inductive DevToolsCall where
  | dispatchMessage (payload : List Char)
  | dispatchMessageChunk (payload : List Char) (totalSize : Option ℕ)
deriving DecidableEq

/-- The successive `str_message.substr(pos, kMaxMessageChunkSize)` slices of
the chunking loop of `DispatchProtocolMessage` (lines 924-929). -/
def chunkPayloads (msg : List Char) : List (List Char) :=
  if h : msg = [] then []
  else msg.take kMaxMessageChunkSize :: chunkPayloads (msg.drop kMaxMessageChunkSize)
termination_by msg.length
decreasing_by
  simp only [List.length_drop]
  have h1 : 0 < msg.length := List.length_pos.mpr h
  have h2 : 0 < kMaxMessageChunkSize := by decide
  omega

/-- `InspectableWebContentsImpl::DispatchProtocolMessage` (lines 905-930):
drop the message when the frontend has not loaded; deliver messages shorter
than `kMaxMessageChunkSize` as one `dispatchMessage`; otherwise deliver the
chunk slices in offset order, the chunk at offset 0 carrying the total
message length. -/
def dispatchProtocolMessage (frontendLoaded : Bool) (msg : List Char) :
    List DevToolsCall :=
  if frontendLoaded = false then []
  else if msg.length < kMaxMessageChunkSize then [DevToolsCall.dispatchMessage msg]
  else
    match chunkPayloads msg with
    | [] => []
    | first :: rest =>
        DevToolsCall.dispatchMessageChunk first (some msg.length)
          :: rest.map (fun c => DevToolsCall.dispatchMessageChunk c none)

/-- Whether a frontend call is a `dispatchMessageChunk`. -/
def isChunkCall : DevToolsCall → Bool
  | DevToolsCall.dispatchMessageChunk _ _ => true
  | _ => false

/-! ### Inbound protocol messages (`DispatchProtocolMessageFromDevToolsFrontend`) -/

/-- `base::MatchPattern` (from `base/strings/pattern.h`): glob match where
`*` matches any run of characters, `?` matches zero or one character, and a
backslash escapes the following character.  The recursion is bounded by a
fuel that always suffices (every recursive call shrinks pattern + subject
by at least one), so the fuel clause is never reached from `matchPattern`. -/
def matchPatternFuel : ℕ → List Char → List Char → Bool
  | 0, _, _ => false
  | fuel + 1, pat, s =>
    match pat, s with
    | [], [] => true
    | [], _ :: _ => false
    | '*' :: p, s =>
        matchPatternFuel fuel p s ||
          (match s with
           | [] => false
           | _ :: s2 => matchPatternFuel fuel ('*' :: p) s2)
    | '?' :: p, s =>
        matchPatternFuel fuel p s ||
          (match s with
           | [] => false
           | _ :: s2 => matchPatternFuel fuel p s2)
    | '\\' :: c :: p, s =>
        (match s with
         | c2 :: s2 => c == c2 && matchPatternFuel fuel p s2
         | [] => false)
    | c :: p, s =>
        (match s with
         | c2 :: s2 => c == c2 && matchPatternFuel fuel p s2
         | [] => false)

/-- `base::MatchPattern(subject, pattern)` with sufficient fuel. -/
def matchPattern (pat s : List Char) : Bool :=
  matchPatternFuel (pat.length + s.length + 1) pat s

/-- The reload pattern of `DispatchProtocolMessageFromDevToolsFrontend`
(lines 824-827): the concatenated C++ literal
`{"id":*,"method":"Page.reload","params":*}`. -/
def kReloadPattern : String :=
  "\x7b\"id\":*,\"method\":\"Page.reload\",\"params\":*\x7d"

/-- Outcome of `DispatchProtocolMessageFromDevToolsFrontend` for one inbound
message: hijacked as a reload (recording whether the delegate was notified),
forwarded to the agent host, or dropped (no agent host). -/
inductive FrontendDispatch where
  | intercepted (delegateNotified : Bool)
  | forwarded (message : String)
  | dropped
deriving DecidableEq

/-- `InspectableWebContentsImpl::DispatchProtocolMessageFromDevToolsFrontend`
(lines 820-836): messages textually matching the reload pattern are hijacked
(the delegate's `DevToolsReloadPage` is invoked when a delegate exists) and
never reach the agent host; every other message is forwarded to the agent
host when one is attached. -/
def dispatchProtocolMessageFromDevToolsFrontend (hasDelegate hasAgentHost : Bool)
    (message : String) : FrontendDispatch :=
  if matchPattern kReloadPattern.data message.data then
    FrontendDispatch.intercepted hasDelegate
  else if hasAgentHost then FrontendDispatch.forwarded message
  else FrontendDispatch.dropped

/-! ### Inbound envelope parsing (`HandleMessageFromDevToolsFrontend`) -/

/-- A parsed frontend→embedder envelope. -/
structure Envelope where
  id : Int
  method : String
  params : List JValue

/-- The id fallback of `HandleMessageFromDevToolsFrontend` (lines 897-898):
`int id = 0; dict->GetInteger("id", &id)` — `id` keeps 0 unless the key is
present with an integer value. -/
def idOf (es : List (String × JValue)) : Int :=
  match lookupJ "id" es with
  | some (JValue.int n) => n
  | _ => 0

/-- The validation block of `HandleMessageFromDevToolsFrontend` (lines
886-898), over the result of `base::JSONReader` (`none` = not valid JSON):
fail unless the value is a dictionary with a string "method", whose
"params", when the key is present, holds a list (absent "params" defaults
to the empty list). -/
def parseEnvelope (parsed : Option JValue) : Option Envelope :=
  match parsed with
  | some (JValue.dict es) =>
    match lookupJ "method" es with
    | some (JValue.str m) =>
      match lookupJ "params" es with
      | some (JValue.list ps) => some ⟨idOf es, m, ps⟩
      | some _ => none
      | none => some ⟨idOf es, m, []⟩
    | _ => none
  | _ => none

/-- `InspectableWebContentsImpl::HandleMessageFromDevToolsFrontend` (lines
876-903): no dispatch when the embedder message dispatcher is absent or the
message fails validation; otherwise exactly one dispatch of the parsed
envelope. -/
def handleMessageFromDevToolsFrontend (dispatcherPresent : Bool)
    (parsed : Option JValue) : List Envelope :=
  if dispatcherPresent = false then []
  else
    match parseEnvelope parsed with
    | none => []
    | some e => [e]

/-! ### Attach/detach lifecycle (`AttachTo` / `Detach`) -/

/-- The attachment state of a session: `agentHost` is the `agent_host_`
member; `attachments` tracks the client attachments this session holds at
agent hosts (`AttachClient` adds one, `DetachClient` removes it), hosts
being identified by numbers. -/
structure AttachState where
  agentHost : Option ℕ
  attachments : List ℕ
deriving DecidableEq

/-- `InspectableWebContentsImpl::Detach` (lines 496-500): call
`DetachClient` on the current host when one exists, then clear
`agent_host_`. -/
def detach (s : AttachState) : AttachState :=
  match s.agentHost with
  | some h => { agentHost := none, attachments := s.attachments.erase h }
  | none => { s with agentHost := none }

/-- `InspectableWebContentsImpl::AttachTo` (lines 487-494): `Detach()`
first, unconditionally, then bind `agent_host_` and `AttachClient`. -/
def attachTo (s : AttachState) (host : ℕ) : AttachState :=
  let s2 := detach s
  { agentHost := some host, attachments := s2.attachments ++ [host] }

/-- One lifecycle call on the session. -/
inductive SessionOp where
  | attach (host : ℕ)
  | detachOp
deriving DecidableEq

/-- Apply one lifecycle call. -/
def applyOp (s : AttachState) : SessionOp → AttachState
  | SessionOp.attach h => attachTo s h
  | SessionOp.detachOp => detach s

/-- Run a sequence of lifecycle calls. -/
def runOps (s : AttachState) (ops : List SessionOp) : AttachState :=
  ops.foldl applyOp s

/-- The session invariant: the client attachments held at agent hosts are
exactly the one recorded in `agent_host_` (none when detached). -/
def AttachInv (s : AttachState) : Prop :=
  s.attachments = s.agentHost.toList

/-! ### Network resource loader (`NetworkResourceLoader`) -/

/-- `kInitialBackoffDelay = base::TimeDelta::FromMilliseconds(250)`
(lines 166-167), in microseconds. -/
def kInitialBackoffDelay : ℚ := 250000

/-- `kMaxBackoffDelay = base::TimeDelta::FromSeconds(10)` (line 168), in
microseconds. -/
def kMaxBackoffDelay : ℚ := 10000000

/-- `NetworkResourceLoader::GetNextExponentialBackoffDelay` (lines 239-245):
the initial fixed delay when the current delta is zero, otherwise the
current delta times 1.3.  `base::TimeDelta` arithmetic is embedded over
exact rationals. -/
def getNextExponentialBackoffDelay (delta : ℚ) : ℚ :=
  if delta = 0 then kInitialBackoffDelay else delta * (13 / 10)

/-- The `retry_delay_` values of the successive loader incarnations for a
load that keeps failing with resource exhaustion: the first loader is
created with `base::TimeDelta()` (zero), and each retry is created with
`GetNextExponentialBackoffDelay` of the previous delay (line 275-283). -/
def retryDelaySeq : ℕ → ℚ
  | 0 => 0
  | n + 1 => getNextExponentialBackoffDelay (retryDelaySeq n)

/-- The data of a `net::HttpResponseHeaders` needed here: the response code
and the header lines in enumeration order (duplicate names may repeat). -/
structure HttpResponseHeadersModel where
  responseCode : Int
  lines : List (String × String)
deriving DecidableEq

/-- `base::DictionaryValue::SetString` on a dot-free key: overwrite the
value of the key when it is already present, otherwise add the key.  (Path
expansion of dotted keys is not modelled; header names are used
verbatim.) -/
def setString : List (String × String) → String → String →
    List (String × String)
  | [], k, v => [(k, v)]
  | (a, b) :: t, k, v =>
      if a = k then (k, v) :: t else (a, b) :: setString t k v

/-- The header dictionary built by the `EnumerateHeaderLines` loop of
`NetworkResourceLoader::OnComplete` (lines 290-296): one `SetString` per
enumerated header line. -/
def buildHeadersDict (lines : List (String × String)) :
    List (String × String) :=
  lines.foldl (fun d p => setString d p.1 p.2) []

/-- The completion value delivered through the dispatch callback: the
"statusCode" integer and, when present, the "headers" dictionary. -/
structure LoadResponse where
  statusCode : Int
  headers : Option (List (String × String))
deriving DecidableEq

/-- The header lines of an optional `HttpResponseHeaders`. -/
def headerLines : Option HttpResponseHeadersModel → List (String × String)
  | some h => h.lines
  | none => []

/-- The terminal completion report of `NetworkResourceLoader::OnComplete`
(lines 284-299): status code from the response headers when they exist
(200 otherwise) and the enumerated header lines folded into a dictionary. -/
def terminalResponse (hdrs : Option HttpResponseHeadersModel) : LoadResponse :=
  { statusCode := match hdrs with | some h => h.responseCode | none => 200,
    headers := some (buildHeadersDict (headerLines hdrs)) }

/-- The network error reported by the `SimpleURLLoader`. -/
inductive NetError where
  | ok
  | errInsufficientResources
  | other (code : Int)
deriving DecidableEq

/-- Outcome of one `OnComplete` call: schedule a retry (a replacement
loader with the given delay) or terminate with a completion report.  In
both branches the loader erases itself from the registry (line 302). -/
inductive LoaderOutcome where
  | retry (delay : ℚ)
  | terminal (resp : LoadResponse)
deriving DecidableEq

/-- `NetworkResourceLoader::OnComplete` (lines 272-303): retry exactly when
the fetch failed with `net::ERR_INSUFFICIENT_RESOURCES` and the current
`retry_delay_` is below `kMaxBackoffDelay`; otherwise report the terminal
response. -/
def onComplete (success : Bool) (netError : NetError) (retryDelay : ℚ)
    (hdrs : Option HttpResponseHeadersModel) : LoaderOutcome :=
  if success = false ∧ netError = NetError.errInsufficientResources ∧
      retryDelay < kMaxBackoffDelay then
    LoaderOutcome.retry (getNextExponentialBackoffDelay retryDelay)
  else
    LoaderOutcome.terminal (terminalResponse hdrs)

/-! ### `LoadNetworkResource` entry -/

/-- The immediate effect of `InspectableWebContentsImpl::LoadNetworkResource`
(lines 648-700): the loader registry after the call, the response delivered
synchronously through the callback (if any), and whether a fetch was set up
(loader created and its download timer started). -/
structure LoadStartResult where
  registry : List ℕ
  syncResponse : Option LoadResponse
  fetchScheduled : Bool
deriving DecidableEq

/-- `LoadNetworkResource`: an invalid URL (the validity of the
`GURL(url)` parse, computed by the external url library) is answered
synchronously with `{"statusCode": 404}` and no "headers" key, touching
neither the network nor the registry; a valid URL creates a loader,
inserts it into the registry and schedules the fetch. -/
def loadNetworkResource (urlValid : Bool) (registry : List ℕ) (loaderId : ℕ) :
    LoadStartResult :=
  if urlValid = false then
    { registry := registry,
      syncResponse := some { statusCode := 404, headers := none },
      fetchScheduled := false }
  else
    { registry := registry ++ [loaderId],
      syncResponse := none,
      fetchScheduled := true }

/-! ### `CallClientFunction` -/

/-- `InspectableWebContentsImpl::GetDevToolsWebContents` (lines 396-402):
the external frontend document when supplied, else the managed one. -/
def getDevToolsWebContents (external managed : Option ℕ) : Option ℕ :=
  match external with
  | some e => some e
  | none => managed

/-- A script invocation executed in a frontend document. -/
structure ClientCall where
  target : ℕ
  function : String
  args : List JValue

/-- `InspectableWebContentsImpl::CallClientFunction` (lines 510-535):
return without any call when no frontend document exists; otherwise invoke
the named function with the arguments that are present (`arg2` is only
consulted when `arg1` exists, `arg3` only when `arg2` does). -/
def callClientFunction (external managed : Option ℕ) (fname : String)
    (arg1 arg2 arg3 : Option JValue) : Option ClientCall :=
  match getDevToolsWebContents external managed with
  | none => none
  | some wc =>
      let args :=
        match arg1 with
        | none => []
        | some a1 =>
          a1 :: (match arg2 with
            | none => []
            | some a2 =>
              a2 :: (match arg3 with
                | none => []
                | some a3 => [a3]))
      some { target := wc, function := fname, args := args }

/-! ### Protocol events before load completion -/

/-- The only session state read or written by `DispatchProtocolMessage`:
the `frontend_loaded_` flag. -/
structure ProtocolSessionState where
  frontendLoaded : Bool
deriving DecidableEq

/-- `LoadCompleted` (lines 563-564): sets `frontend_loaded_`. -/
def loadCompleted (s : ProtocolSessionState) : ProtocolSessionState :=
  { s with frontendLoaded := true }

/-- `DispatchProtocolMessage` as a step on the session state: the method
mutates no session field, and produces the frontend calls of
`dispatchProtocolMessage`. -/
def onDispatchProtocolMessage (s : ProtocolSessionState) (msg : List Char) :
    ProtocolSessionState × List DevToolsCall :=
  (s, dispatchProtocolMessage s.frontendLoaded msg)

/-! ### Chunking lemmas -/

/-- The chunk slices concatenate back to the original message. -/
lemma chunkPayloads_flatten (msg : List Char) :
    (chunkPayloads msg).flatten = msg := by
  by_cases h : msg = []
  · rw [chunkPayloads]
    simp [h]
  · rw [chunkPayloads]
    rw [dif_neg h]
    have ih := chunkPayloads_flatten (msg.drop kMaxMessageChunkSize)
    simp [ih]
termination_by msg.length
decreasing_by
  simp only [List.length_drop]
  have h1 : 0 < msg.length := List.length_pos.mpr h
  have h2 : 0 < kMaxMessageChunkSize := by decide
  omega

/-- The number of chunk slices of a nonempty message. -/
lemma chunkPayloads_length (msg : List Char) (h : msg ≠ []) :
    (chunkPayloads msg).length = (msg.length - 1) / kMaxMessageChunkSize + 1 := by
  have h2 : 0 < kMaxMessageChunkSize := by decide
  rw [chunkPayloads]
  simp only [h, dite_false]
  by_cases hle : msg.length ≤ kMaxMessageChunkSize
  · have hd : msg.drop kMaxMessageChunkSize = [] := List.drop_eq_nil_of_le hle
    rw [hd, chunkPayloads]
    have h1 : 0 < msg.length := List.length_pos.mpr h
    have : (msg.length - 1) / kMaxMessageChunkSize = 0 :=
      Nat.div_eq_of_lt (by omega)
    simp [this]
  · push_neg at hle
    have hd : msg.drop kMaxMessageChunkSize ≠ [] := by
      apply List.ne_nil_of_length_pos
      simp only [List.length_drop]
      omega
    have ih := chunkPayloads_length (msg.drop kMaxMessageChunkSize) hd
    simp only [List.length_cons, ih, List.length_drop]
    rw [show msg.length - 1 =
      (msg.length - kMaxMessageChunkSize - 1) + kMaxMessageChunkSize by omega,
      Nat.add_div_right _ h2]
termination_by msg.length
decreasing_by
  simp only [List.length_drop]
  have h1 : 0 < msg.length := List.length_pos.mpr h
  have h2 : 0 < kMaxMessageChunkSize := by decide
  omega

/-- C1 (amended): a protocol message delivered to the loaded frontend is one
non-chunked `dispatchMessage` call exactly when its length is STRICTLY BELOW
`kMaxMessageChunkSize`; when the length is at least `kMaxMessageChunkSize`
(including equality) the delivery is exactly
`ceil(length / kMaxMessageChunkSize)` `dispatchMessageChunk` calls. -/
theorem c1_chunking_amended (msg : List Char) :
    (msg.length < kMaxMessageChunkSize →
      dispatchProtocolMessage true msg = [DevToolsCall.dispatchMessage msg]) ∧
    (kMaxMessageChunkSize ≤ msg.length →
      (∀ c ∈ dispatchProtocolMessage true msg, isChunkCall c = true) ∧
      (dispatchProtocolMessage true msg).length =
        (msg.length + kMaxMessageChunkSize - 1) / kMaxMessageChunkSize) := by
  constructor
  · intro h
    simp [dispatchProtocolMessage, h]
  · intro h
    have h2 : 0 < kMaxMessageChunkSize := by decide
    have hne : msg ≠ [] := by
      apply List.ne_nil_of_length_pos
      omega
    have hnlt : ¬ msg.length < kMaxMessageChunkSize := by omega
    have hcp := chunkPayloads_length msg hne
    rcases hc : chunkPayloads msg with _ | ⟨first, rest⟩
    · rw [hc] at hcp
      simp at hcp
    · constructor
      · intro c hm
        simp [dispatchProtocolMessage, hnlt, hc] at hm
        rcases hm with rfl | ⟨a, _, rfl⟩ <;> rfl
      · rw [hc] at hcp
        simp only [List.length_cons] at hcp
        simp [dispatchProtocolMessage, hnlt, hc]
        rw [show msg.length + kMaxMessageChunkSize - 1 =
          (msg.length - 1) + kMaxMessageChunkSize by omega,
          Nat.add_div_right _ h2]
        omega

/-- C1 (counterexample): at the boundary length `kMaxMessageChunkSize`
itself the claim predicts a single non-chunked `dispatchMessage` call
(`L <= maxChunkSize`), but the code (which tests `size() <
kMaxMessageChunkSize`) delivers it as one `dispatchMessageChunk` call. -/
theorem c1_chunking_counterexample :
    (List.replicate kMaxMessageChunkSize 'a').length ≤ kMaxMessageChunkSize ∧
    dispatchProtocolMessage true (List.replicate kMaxMessageChunkSize 'a') =
      [DevToolsCall.dispatchMessageChunk (List.replicate kMaxMessageChunkSize 'a')
        (some kMaxMessageChunkSize)] := by
  have h2 : 0 < kMaxMessageChunkSize := by decide
  constructor
  · simp
  · have hlen : (List.replicate kMaxMessageChunkSize 'a').length
        = kMaxMessageChunkSize := by simp
    have hne : List.replicate kMaxMessageChunkSize 'a' ≠ ([] : List Char) := by
      apply List.ne_nil_of_length_pos
      simpa using h2
    have hnlt : ¬ (List.replicate kMaxMessageChunkSize 'a').length
        < kMaxMessageChunkSize := by simp
    have hcp : chunkPayloads (List.replicate kMaxMessageChunkSize 'a')
        = [List.replicate kMaxMessageChunkSize 'a'] := by
      rw [chunkPayloads, dif_neg hne]
      have hd : (List.replicate kMaxMessageChunkSize 'a').drop
          kMaxMessageChunkSize = [] :=
        List.drop_eq_nil_of_le (by simp)
      rw [hd, chunkPayloads]
      simp
    simp [dispatchProtocolMessage, hnlt, hcp, hlen]

/-- C1 (witness): a 1-character message is delivered as a single
`dispatchMessage`, and a message of exactly `kMaxMessageChunkSize`
characters is delivered as `ceil(L / kMaxMessageChunkSize)` chunk calls. -/
theorem c1_chunking_amended_witness :
    dispatchProtocolMessage true ['a'] = [DevToolsCall.dispatchMessage ['a']] ∧
    (dispatchProtocolMessage true (List.replicate kMaxMessageChunkSize 'a')).length =
      (kMaxMessageChunkSize + kMaxMessageChunkSize - 1) / kMaxMessageChunkSize :=
  ⟨(c1_chunking_amended ['a']).1 (by decide),
   by
    have := ((c1_chunking_amended (List.replicate kMaxMessageChunkSize 'a')).2
      (by simp)).2
    simpa using this⟩

/-- C6: a message split into chunks is delivered as chunk calls in message
offset order, the first chunk (and only the first) additionally carrying
the total message length, and the concatenation of the chunk payloads in
delivery order is the original message. -/
theorem c6_chunk_integrity (msg : List Char)
    (h : kMaxMessageChunkSize ≤ msg.length) :
    ∃ first rest,
      chunkPayloads msg = first :: rest ∧
      dispatchProtocolMessage true msg =
        DevToolsCall.dispatchMessageChunk first (some msg.length)
          :: rest.map (fun c => DevToolsCall.dispatchMessageChunk c none) ∧
      (first :: rest).flatten = msg := by
  have h2 : 0 < kMaxMessageChunkSize := by decide
  have hne : msg ≠ [] := by
    apply List.ne_nil_of_length_pos
    omega
  have hnlt : ¬ msg.length < kMaxMessageChunkSize := by omega
  rcases hc : chunkPayloads msg with _ | ⟨first, rest⟩
  · have hfl := chunkPayloads_flatten msg
    rw [hc] at hfl
    simp at hfl
    exact absurd hfl hne
  · refine ⟨first, rest, rfl, ?_, ?_⟩
    · simp [dispatchProtocolMessage, hnlt, hc]
    · have hfl := chunkPayloads_flatten msg
      rw [hc] at hfl
      exact hfl

/-- C6 (witness): the chunked delivery of a concrete message of exactly
`kMaxMessageChunkSize` characters. -/
theorem c6_chunk_integrity_witness :
    ∃ first rest,
      chunkPayloads (List.replicate kMaxMessageChunkSize 'a') = first :: rest ∧
      dispatchProtocolMessage true (List.replicate kMaxMessageChunkSize 'a') =
        DevToolsCall.dispatchMessageChunk first
            (some (List.replicate kMaxMessageChunkSize 'a').length)
          :: rest.map (fun c => DevToolsCall.dispatchMessageChunk c none) ∧
      (first :: rest).flatten = List.replicate kMaxMessageChunkSize 'a' :=
  c6_chunk_integrity _ (by simp)

/-- C2 (amended): interception of inbound frontend protocol messages is
decided by a TEXTUAL glob match of the raw message against
`{"id":*,"method":"Page.reload","params":*}`: a matching message is
hijacked (delegate page-reload notification, when a delegate exists) and is
never forwarded to the agent host; a non-matching message is never
intercepted and is forwarded verbatim whenever an agent host is attached —
even when its JSON method is "Page.reload". -/
theorem c2_reload_interception_amended (message : String)
    (hasDelegate hasAgentHost : Bool) :
    (matchPattern kReloadPattern.data message.data = true →
      dispatchProtocolMessageFromDevToolsFrontend hasDelegate hasAgentHost
        message = FrontendDispatch.intercepted hasDelegate) ∧
    (matchPattern kReloadPattern.data message.data = false →
      (∀ b, dispatchProtocolMessageFromDevToolsFrontend hasDelegate hasAgentHost
          message ≠ FrontendDispatch.intercepted b) ∧
      (hasAgentHost = true →
        dispatchProtocolMessageFromDevToolsFrontend hasDelegate hasAgentHost
          message = FrontendDispatch.forwarded message)) := by
  constructor
  · intro h
    simp [dispatchProtocolMessageFromDevToolsFrontend, h]
  · intro h
    constructor
    · intro b
      cases hA : hasAgentHost <;>
        simp [dispatchProtocolMessageFromDevToolsFrontend, h, hA]
    · intro hA
      simp [dispatchProtocolMessageFromDevToolsFrontend, h, hA]

/-- C2 (counterexample): the message `{"method":"Page.reload"}` is a valid
envelope whose method is "Page.reload" (its `base::Value` parse is shown to
yield the envelope with method "Page.reload", default id 0 and empty
params), yet it does not match the textual reload pattern, so with a
delegate and an attached agent host it is FORWARDED to the inspected
target's protocol sink instead of being intercepted. -/
theorem c2_reload_interception_counterexample :
    parseEnvelope (some (JValue.dict [("method", JValue.str "Page.reload")])) =
      some ⟨0, "Page.reload", []⟩ ∧
    dispatchProtocolMessageFromDevToolsFrontend true true
        "\x7b\"method\":\"Page.reload\"\x7d" =
      FrontendDispatch.forwarded "\x7b\"method\":\"Page.reload\"\x7d" := by
  constructor
  · rfl
  · have h : matchPattern kReloadPattern.data
        ("\x7b\"method\":\"Page.reload\"\x7d" : String).data = false := by decide
    simp [dispatchProtocolMessageFromDevToolsFrontend, h]

/-- C2 (witness): a message of the full textual shape
`{"id":1,"method":"Page.reload","params":[]}` is intercepted and the
delegate notified. -/
theorem c2_reload_interception_witness :
    dispatchProtocolMessageFromDevToolsFrontend true true
        "\x7b\"id\":1,\"method\":\"Page.reload\",\"params\":[]\x7d" =
      FrontendDispatch.intercepted true :=
  (c2_reload_interception_amended _ true true).1 (by decide)

/-- Closed form of the backoff delay sequence. -/
lemma retryDelaySeq_closed (n : ℕ) :
    retryDelaySeq (n + 1) = 250000 * (13 / 10) ^ n := by
  induction n with
  | zero =>
    simp [retryDelaySeq, getNextExponentialBackoffDelay, kInitialBackoffDelay]
  | succ n ih =>
    have hpos : (0 : ℚ) < 250000 * (13 / 10) ^ n := by positivity
    rw [show n + 1 + 1 = (n + 1) + 1 from rfl, retryDelaySeq, ih,
      getNextExponentialBackoffDelay, if_neg (by positivity)]
    ring

/-- The scheduled delays are positive from the first retry on. -/
lemma retryDelaySeq_pos (n : ℕ) : 0 < retryDelaySeq (n + 1) := by
  rw [retryDelaySeq_closed]
  positivity

/-- C3 (amended): for a load repeatedly failing with
`ERR_INSUFFICIENT_RESOURCES` the retry delays are strictly increasing with
`d[0] = 250 ms` (the initial fixed delay) and `d[n+1] = d[n] * 1.3`, and a
further retry is scheduled exactly as long as the CURRENT delay is below
the 10 s ceiling — not as long as the computed next delay would stay within
it; once the current delay reaches the ceiling the load terminates with the
failure report instead of retrying. -/
theorem c3_backoff_amended (n : ℕ) (hdrs : Option HttpResponseHeadersModel) :
    retryDelaySeq 1 = kInitialBackoffDelay ∧
    (1 ≤ n → retryDelaySeq (n + 1) = retryDelaySeq n * (13 / 10)) ∧
    retryDelaySeq n < retryDelaySeq (n + 1) ∧
    onComplete false NetError.errInsufficientResources (retryDelaySeq n) hdrs =
      (if retryDelaySeq n < kMaxBackoffDelay
       then LoaderOutcome.retry (retryDelaySeq (n + 1))
       else LoaderOutcome.terminal (terminalResponse hdrs)) := by
  refine ⟨rfl, ?_, ?_, ?_⟩
  · intro hn
    obtain ⟨m, rfl⟩ := Nat.exists_eq_add_of_le hn
    rw [show 1 + m = m + 1 by omega]
    rw [retryDelaySeq_closed m, retryDelaySeq_closed (m + 1)]
    ring
  · cases n with
    | zero =>
      rw [show retryDelaySeq 0 = 0 from rfl, retryDelaySeq_closed]
      norm_num
    | succ m =>
      rw [retryDelaySeq_closed m, retryDelaySeq_closed (m + 1)]
      have h1 : ((13 : ℚ) / 10) ^ m < ((13 : ℚ) / 10) ^ (m + 1) := by
        apply pow_lt_pow_right₀ (by norm_num) (Nat.lt_succ_self m)
      exact mul_lt_mul_of_pos_left h1 (by norm_num)
  · rw [onComplete]
    by_cases hlt : retryDelaySeq n < kMaxBackoffDelay
    · rw [if_pos ⟨rfl, rfl, hlt⟩, if_pos hlt, retryDelaySeq]
    · rw [if_neg (by
        intro hconj
        exact hlt hconj.2.2), if_neg hlt]

/-- C3 (counterexample): at the 15th scheduled delay (about 9.84 s, still
below the 10 s ceiling) the computed next delay (about 12.8 s) exceeds the
ceiling, so under the claim the load must terminate with failure; the code
instead schedules one more retry, whose delay exceeds the ceiling. -/
theorem c3_backoff_counterexample :
    retryDelaySeq 15 < kMaxBackoffDelay ∧
    kMaxBackoffDelay < getNextExponentialBackoffDelay (retryDelaySeq 15) ∧
    onComplete false NetError.errInsufficientResources (retryDelaySeq 15) none =
      LoaderOutcome.retry (retryDelaySeq 16) := by
  have h15 : retryDelaySeq 15 = 250000 * (13 / 10) ^ 14 := retryDelaySeq_closed 14
  have hlt : retryDelaySeq 15 < kMaxBackoffDelay := by
    rw [h15, kMaxBackoffDelay]
    norm_num
  refine ⟨hlt, ?_, ?_⟩
  · rw [getNextExponentialBackoffDelay, if_neg (by rw [h15]; positivity), h15,
      kMaxBackoffDelay]
    norm_num
  · rw [onComplete, if_pos ⟨rfl, rfl, hlt⟩]
    rfl

/-- C3 (witness): the second scheduled delay is 1.3 times the first. -/
theorem c3_backoff_amended_witness :
    retryDelaySeq 2 = retryDelaySeq 1 * (13 / 10) :=
  (c3_backoff_amended 1 none).2.1 (le_refl 1)

/-! ### Header dictionary lemmas -/

/-- Lookup of a key in the header dictionary (first occurrence). -/
def lookupKey (key : String) : List (String × String) → Option String
  | [] => none
  | (k, v) :: t => if k = key then some v else lookupKey key t

/-- The value of the LAST header line carrying `key` (none when absent). -/
def lastOcc (lines : List (String × String)) (key : String) : Option String :=
  lookupKey key lines.reverse

lemma lookupKey_append (key : String) (a b : List (String × String)) :
    lookupKey key (a ++ b) =
      match lookupKey key a with
      | some v => some v
      | none => lookupKey key b := by
  induction a with
  | nil => rfl
  | cons p t ih =>
    obtain ⟨k, v⟩ := p
    by_cases hk : k = key <;> simp [lookupKey, hk, ih]

lemma lookupKey_setString (d : List (String × String)) (k v key : String) :
    lookupKey key (setString d k v) =
      if key = k then some v else lookupKey key d := by
  induction d with
  | nil =>
    by_cases hk : key = k
    · subst hk
      simp [setString, lookupKey]
    · simp [setString, lookupKey, hk, Ne.symm hk]
  | cons p t ih =>
    obtain ⟨a, b⟩ := p
    by_cases ha : a = k
    · subst ha
      by_cases hk : key = a
      · subst hk
        simp [setString, lookupKey]
      · simp [setString, lookupKey, hk, Ne.symm hk]
    · by_cases hak : a = key
      · subst hak
        simp [setString, lookupKey, ha]
      · simp [setString, lookupKey, ha, hak, ih]

lemma mem_keys_setString (d : List (String × String)) (k v x : String)
    (h : x ∈ (setString d k v).map Prod.fst) :
    x ∈ d.map Prod.fst ∨ x = k := by
  induction d with
  | nil =>
    simp [setString] at h
    exact Or.inr h
  | cons p t ih =>
    obtain ⟨a, b⟩ := p
    by_cases ha : a = k
    · simp [setString, ha] at h
      rcases h with h | ⟨w, hw⟩
      · exact Or.inr h
      · exact Or.inl
          (List.mem_map.mpr ⟨(x, w), List.mem_cons_of_mem _ hw, rfl⟩)
    · simp [setString, ha] at h
      rcases h with h | ⟨w, hw⟩
      · exact Or.inl (by simp [h])
      · rcases ih (List.mem_map.mpr ⟨(x, w), hw, rfl⟩) with h2 | h2
        · rcases List.mem_map.mp h2 with ⟨q, hq, hqx⟩
          exact Or.inl
            (List.mem_map.mpr ⟨q, List.mem_cons_of_mem _ hq, hqx⟩)
        · exact Or.inr h2

lemma setString_nodup (d : List (String × String)) (k v : String)
    (h : (d.map Prod.fst).Nodup) :
    ((setString d k v).map Prod.fst).Nodup := by
  induction d with
  | nil => simp [setString]
  | cons p t ih =>
    obtain ⟨a, b⟩ := p
    simp only [List.map_cons, List.nodup_cons] at h
    obtain ⟨hna, hnt⟩ := h
    by_cases ha : a = k
    · simp only [setString, if_pos ha, List.map_cons, List.nodup_cons]
      exact ⟨ha ▸ hna, hnt⟩
    · simp only [setString, if_neg ha, List.map_cons, List.nodup_cons]
      refine ⟨?_, ih hnt⟩
      intro hmem
      rcases mem_keys_setString t k v a hmem with h2 | h2
      · exact hna h2
      · exact ha h2

lemma foldl_setString_nodup (lines : List (String × String)) :
    ∀ d, ((d.map Prod.fst).Nodup) →
      (((lines.foldl (fun d p => setString d p.1 p.2) d)).map Prod.fst).Nodup := by
  induction lines with
  | nil => exact fun d h => h
  | cons p t ih =>
    intro d h
    rw [List.foldl_cons]
    exact ih _ (setString_nodup d p.1 p.2 h)

lemma lookupKey_foldl_setString (lines : List (String × String)) :
    ∀ (d : List (String × String)) (key : String),
      lookupKey key (lines.foldl (fun d p => setString d p.1 p.2) d) =
        match lastOcc lines key with
        | some v => some v
        | none => lookupKey key d := by
  induction lines with
  | nil => intro d key; rfl
  | cons p t ih =>
    intro d key
    obtain ⟨k, v⟩ := p
    rw [List.foldl_cons, ih]
    have hrev : lastOcc ((k, v) :: t) key =
        (match lastOcc t key with
         | some w => some w
         | none => if k = key then some v else none) := by
      simp only [lastOcc, List.reverse_cons, lookupKey_append]
      cases lookupKey key t.reverse <;> rfl
    rw [hrev, lookupKey_setString]
    cases lastOcc t key with
    | some w => rfl
    | none =>
      by_cases hk : k = key
      · simp [hk]
      · simp [hk, Ne.symm hk]

/-- C4 (amended): a terminal completion report carries a status code taken
from the response headers when they are available and 200 otherwise,
together with a header dictionary in which each header NAME appears at most
once and is bound to the value of its LAST enumerated line — duplicate
header names are overwritten, not preserved as repeated entries. -/
theorem c4_completion_report_amended (hdrs : Option HttpResponseHeadersModel) :
    (terminalResponse hdrs).statusCode =
      (match hdrs with | some h => h.responseCode | none => 200) ∧
    ∃ dict, (terminalResponse hdrs).headers = some dict ∧
      (∀ key, lookupKey key dict = lastOcc (headerLines hdrs) key) ∧
      (dict.map Prod.fst).Nodup := by
  refine ⟨rfl, buildHeadersDict (headerLines hdrs), rfl, ?_, ?_⟩
  · intro key
    have h := lookupKey_foldl_setString (headerLines hdrs) [] key
    rw [show buildHeadersDict (headerLines hdrs) =
      (headerLines hdrs).foldl (fun d p => setString d p.1 p.2) [] from rfl, h]
    cases lastOcc (headerLines hdrs) key <;> rfl
  · exact foldl_setString_nodup (headerLines hdrs) [] (by simp)

/-- C4 (counterexample): two response header lines with the same name
("Set-Cookie: a" then "Set-Cookie: b") end up as a SINGLE dictionary entry
holding the last value — the first value is lost, contradicting the claim
that duplicate names are preserved as repeated entries. -/
theorem c4_completion_report_counterexample :
    terminalResponse
        (some { responseCode := 200,
                lines := [("Set-Cookie", "a"), ("Set-Cookie", "b")] }) =
      { statusCode := 200, headers := some [("Set-Cookie", "b")] } := by
  rfl

/-- Transcribed from the spec's words (for comparison with the code): a
parse failure is a payload that is not valid JSON, is not an object, lacks
a string `method`, or has a `params` field that is not a list. -/
def specParseFails (parsed : Option JValue) : Prop :=
  parsed = none ∨
  (∃ v, parsed = some v ∧ ∀ es, v ≠ JValue.dict es) ∨
  (∃ es, parsed = some (JValue.dict es) ∧
    ∀ m, lookupJ "method" es ≠ some (JValue.str m)) ∨
  (∃ es v, parsed = some (JValue.dict es) ∧ lookupJ "params" es = some v ∧
    ∀ l, v ≠ JValue.list l)

/-- A non-dictionary payload fails the spec's parse conditions. -/
lemma specParseFails_of_not_dict (v : JValue) (h : ∀ es, v ≠ JValue.dict es) :
    specParseFails (some v) :=
  Or.inr (Or.inl ⟨v, rfl, h⟩)

/-- A successfully parsed envelope's id is the id read by `GetInteger`. -/
lemma parseEnvelope_id (es : List (String × JValue)) (e : Envelope)
    (h : parseEnvelope (some (JValue.dict es)) = some e) : e.id = idOf es := by
  simp only [parseEnvelope] at h
  rcases hm : lookupJ "method" es with _ | mv
  · rw [hm] at h
    simp at h
  · rw [hm] at h
    cases mv with
    | str m =>
      rcases hp : lookupJ "params" es with _ | pv
      · rw [hp] at h
        simp at h
        subst h
        rfl
      · rw [hp] at h
        cases pv with
        | list ps =>
          simp at h
          subst h
          rfl
        | null => simp at h
        | bool b => simp at h
        | int n => simp at h
        | num q => simp at h
        | str s => simp at h
        | dict d => simp at h
    | null => simp at h
    | bool b => simp at h
    | int n => simp at h
    | num q => simp at h
    | list l => simp at h
    | dict d => simp at h

/-- C5: an inbound frontend message fails validation — dropped with no
dispatch — exactly when the payload is not valid JSON, is not an object,
lacks a string `method`, or has a `params` field that is not a list
(absent `params` defaults to the empty list); on success an absent `id`
defaults to 0. -/
theorem c5_parse_validation (parsed : Option JValue) :
    (parseEnvelope parsed = none ↔ specParseFails parsed) ∧
    (parseEnvelope parsed = none →
      handleMessageFromDevToolsFrontend true parsed = []) ∧
    (∀ es e, parsed = some (JValue.dict es) → lookupJ "id" es = none →
      parseEnvelope parsed = some e → e.id = 0) := by
  refine ⟨?_, ?_, ?_⟩
  · cases parsed with
    | none =>
      constructor
      · intro _
        exact Or.inl rfl
      · intro _
        rfl
    | some v =>
      cases v with
      | dict es =>
        rcases hm : lookupJ "method" es with _ | mv
        · constructor
          · intro _
            refine Or.inr (Or.inr (Or.inl ⟨es, rfl, ?_⟩))
            intro m hc
            rw [hm] at hc
            exact Option.noConfusion hc
          · intro _
            simp [parseEnvelope, hm]
        · cases mv with
          | str m =>
            rcases hp : lookupJ "params" es with _ | pv
            · constructor
              · intro hparse
                exfalso
                simp [parseEnvelope, hm, hp] at hparse
              · rintro (h | ⟨w, hw, hnd⟩ | ⟨es2, he, hm2⟩ |
                  ⟨es2, w, he, hpw, hnl⟩)
                · exact Option.noConfusion h
                · injection hw with hw
                  exact absurd hw.symm (hnd es)
                · injection he with he
                  injection he with he
                  subst he
                  exact absurd hm (hm2 m)
                · injection he with he
                  injection he with he
                  subst he
                  rw [hp] at hpw
                  exact Option.noConfusion hpw
            · cases pv with
              | list ps =>
                constructor
                · intro hparse
                  exfalso
                  simp [parseEnvelope, hm, hp] at hparse
                · rintro (h | ⟨w, hw, hnd⟩ | ⟨es2, he, hm2⟩ |
                    ⟨es2, w, he, hpw, hnl⟩)
                  · exact Option.noConfusion h
                  · injection hw with hw
                    exact absurd hw.symm (hnd es)
                  · injection he with he
                    injection he with he
                    subst he
                    exact absurd hm (hm2 m)
                  · injection he with he
                    injection he with he
                    subst he
                    rw [hp] at hpw
                    injection hpw with hpw
                    exact absurd hpw.symm (hnl ps)
              | null =>
                constructor
                · intro _
                  exact Or.inr (Or.inr (Or.inr
                    ⟨es, JValue.null, rfl, hp, fun l hc => JValue.noConfusion hc⟩))
                · intro _
                  simp [parseEnvelope, hm, hp]
              | bool b =>
                constructor
                · intro _
                  exact Or.inr (Or.inr (Or.inr
                    ⟨es, JValue.bool b, rfl, hp, fun l hc => JValue.noConfusion hc⟩))
                · intro _
                  simp [parseEnvelope, hm, hp]
              | int n =>
                constructor
                · intro _
                  exact Or.inr (Or.inr (Or.inr
                    ⟨es, JValue.int n, rfl, hp, fun l hc => JValue.noConfusion hc⟩))
                · intro _
                  simp [parseEnvelope, hm, hp]
              | num q =>
                constructor
                · intro _
                  exact Or.inr (Or.inr (Or.inr
                    ⟨es, JValue.num q, rfl, hp, fun l hc => JValue.noConfusion hc⟩))
                · intro _
                  simp [parseEnvelope, hm, hp]
              | str s =>
                constructor
                · intro _
                  exact Or.inr (Or.inr (Or.inr
                    ⟨es, JValue.str s, rfl, hp, fun l hc => JValue.noConfusion hc⟩))
                · intro _
                  simp [parseEnvelope, hm, hp]
              | dict d =>
                constructor
                · intro _
                  exact Or.inr (Or.inr (Or.inr
                    ⟨es, JValue.dict d, rfl, hp, fun l hc => JValue.noConfusion hc⟩))
                · intro _
                  simp [parseEnvelope, hm, hp]
          | null =>
            constructor
            · intro _
              refine Or.inr (Or.inr (Or.inl ⟨es, rfl, ?_⟩))
              intro m hc
              rw [hm] at hc
              injection hc with hc
              exact JValue.noConfusion hc
            · intro _
              simp [parseEnvelope, hm]
          | bool b =>
            constructor
            · intro _
              refine Or.inr (Or.inr (Or.inl ⟨es, rfl, ?_⟩))
              intro m hc
              rw [hm] at hc
              injection hc with hc
              exact JValue.noConfusion hc
            · intro _
              simp [parseEnvelope, hm]
          | int n =>
            constructor
            · intro _
              refine Or.inr (Or.inr (Or.inl ⟨es, rfl, ?_⟩))
              intro m hc
              rw [hm] at hc
              injection hc with hc
              exact JValue.noConfusion hc
            · intro _
              simp [parseEnvelope, hm]
          | num q =>
            constructor
            · intro _
              refine Or.inr (Or.inr (Or.inl ⟨es, rfl, ?_⟩))
              intro m hc
              rw [hm] at hc
              injection hc with hc
              exact JValue.noConfusion hc
            · intro _
              simp [parseEnvelope, hm]
          | list l =>
            constructor
            · intro _
              refine Or.inr (Or.inr (Or.inl ⟨es, rfl, ?_⟩))
              intro m hc
              rw [hm] at hc
              injection hc with hc
              exact JValue.noConfusion hc
            · intro _
              simp [parseEnvelope, hm]
          | dict d =>
            constructor
            · intro _
              refine Or.inr (Or.inr (Or.inl ⟨es, rfl, ?_⟩))
              intro m hc
              rw [hm] at hc
              injection hc with hc
              exact JValue.noConfusion hc
            · intro _
              simp [parseEnvelope, hm]
      | null =>
        constructor
        · intro _
          exact specParseFails_of_not_dict _ (fun es hc => JValue.noConfusion hc)
        · intro _
          rfl
      | bool b =>
        constructor
        · intro _
          exact specParseFails_of_not_dict _ (fun es hc => JValue.noConfusion hc)
        · intro _
          rfl
      | int n =>
        constructor
        · intro _
          exact specParseFails_of_not_dict _ (fun es hc => JValue.noConfusion hc)
        · intro _
          rfl
      | num q =>
        constructor
        · intro _
          exact specParseFails_of_not_dict _ (fun es hc => JValue.noConfusion hc)
        · intro _
          rfl
      | str s =>
        constructor
        · intro _
          exact specParseFails_of_not_dict _ (fun es hc => JValue.noConfusion hc)
        · intro _
          rfl
      | list l =>
        constructor
        · intro _
          exact specParseFails_of_not_dict _ (fun es hc => JValue.noConfusion hc)
        · intro _
          rfl
  · intro h
    simp [handleMessageFromDevToolsFrontend, h]
  · intro es e hes hid hparse
    subst hes
    rw [parseEnvelope_id es e hparse]
    simp [idOf, hid]

/-- C5 (witness): a payload that is valid JSON but not an object is dropped
with no dispatch. -/
theorem c5_parse_validation_witness :
    handleMessageFromDevToolsFrontend true (some (JValue.int 5)) = [] :=
  (c5_parse_validation (some (JValue.int 5))).2.1 rfl

/-- C7: a `LoadNetworkResource` call whose URL does not parse as valid
completes synchronously with a synthetic 404 status and no headers,
attempts no fetch (hence schedules no retry), and leaves the loader
registry untouched. -/
theorem c7_invalid_url (urlValid : Bool) (h : urlValid = false)
    (registry : List ℕ) (loaderId : ℕ) :
    loadNetworkResource urlValid registry loaderId =
      { registry := registry,
        syncResponse := some { statusCode := 404, headers := none },
        fetchScheduled := false } := by
  subst h
  rfl

/-- C7 (witness): the invalid-URL path at a concrete registry. -/
theorem c7_invalid_url_witness :
    loadNetworkResource false [3] 7 =
      { registry := [3],
        syncResponse := some { statusCode := 404, headers := none },
        fetchScheduled := false } :=
  c7_invalid_url false rfl [3] 7

/-! ### C8: attach/detach lifecycle -/

/-- Detaching always clears `agent_host_`. -/
lemma detach_agentHost (s : AttachState) : (detach s).agentHost = none := by
  rcases s with ⟨h, a⟩
  cases h <;> rfl

/-- Detaching preserves the session invariant. -/
lemma attachInv_detach (s : AttachState) (h : AttachInv s) :
    AttachInv (detach s) := by
  rcases s with ⟨ho, a⟩
  cases ho with
  | none => exact h
  | some x =>
    unfold AttachInv at h ⊢
    simp only [detach] at *
    rw [h]
    simp [Option.toList]

/-- Attaching preserves the session invariant. -/
lemma attachInv_attachTo (s : AttachState) (host : ℕ) (h : AttachInv s) :
    AttachInv (attachTo s host) := by
  have hd := attachInv_detach s h
  unfold AttachInv at hd ⊢
  simp only [attachTo]
  rw [hd, detach_agentHost]
  rfl

/-- Every lifecycle call preserves the session invariant. -/
lemma attachInv_applyOp (s : AttachState) (op : SessionOp) (h : AttachInv s) :
    AttachInv (applyOp s op) := by
  cases op with
  | attach host => exact attachInv_attachTo s host h
  | detachOp => exact attachInv_detach s h

/-- Any sequence of lifecycle calls preserves the session invariant. -/
lemma attachInv_runOps (ops : List SessionOp) :
    ∀ s, AttachInv s → AttachInv (runOps s ops) := by
  induction ops with
  | nil => exact fun s h => h
  | cons op t ih =>
    intro s h
    rw [runOps, List.foldl_cons]
    exact ih _ (attachInv_applyOp s op h)

/-- C8: `AttachTo` always detaches the existing attachment first and then
binds the new host; `Detach` on a detached session is a no-op; and after
any sequence of attach/detach calls the session holds at most one active
attachment. -/
theorem c8_attach_lifecycle (s : AttachState) (hInv : AttachInv s) :
    (∀ host, attachTo s host =
      { agentHost := some host,
        attachments := (detach s).attachments ++ [host] }) ∧
    (s.agentHost = none → detach s = s) ∧
    (∀ ops, AttachInv (runOps s ops) ∧
      (runOps s ops).attachments.length ≤ 1) := by
  refine ⟨fun host => rfl, ?_, ?_⟩
  · intro h0
    rcases s with ⟨ho, a⟩
    simp only at h0
    subst h0
    rfl
  · intro ops
    have hrun := attachInv_runOps ops s hInv
    refine ⟨hrun, ?_⟩
    unfold AttachInv at hrun
    rw [hrun]
    cases (runOps s ops).agentHost <;> simp [Option.toList]

/-- C8 (witness): a session that attaches twice and then detaches twice
keeps the invariant and at most one attachment throughout. -/
theorem c8_attach_lifecycle_witness :
    AttachInv (runOps { agentHost := none, attachments := [] }
      [SessionOp.attach 1, SessionOp.attach 2, SessionOp.detachOp,
       SessionOp.detachOp]) ∧
    (runOps { agentHost := none, attachments := [] }
      [SessionOp.attach 1, SessionOp.attach 2, SessionOp.detachOp,
       SessionOp.detachOp]).attachments.length ≤ 1 :=
  (c8_attach_lifecycle { agentHost := none, attachments := [] } rfl).2.2
    [SessionOp.attach 1, SessionOp.attach 2, SessionOp.detachOp,
     SessionOp.detachOp]

/-- C9: a client-function delivery (stream chunks, message acks, extension
lists all flow through `CallClientFunction`) is a complete no-op — no call,
no error — when neither a managed nor an external frontend document
exists. -/
theorem c9_no_frontend_noop (external managed : Option ℕ)
    (hext : external = none) (hman : managed = none)
    (fname : String) (arg1 arg2 arg3 : Option JValue) :
    callClientFunction external managed fname arg1 arg2 arg3 = none := by
  subst hext
  subst hman
  rfl

/-- C9 (witness): a `DevToolsAPI.streamWrite` delivery with no frontend
document is a no-op. -/
theorem c9_no_frontend_noop_witness :
    callClientFunction none none "DevToolsAPI.streamWrite"
      (some (JValue.int 7)) (some (JValue.str "data")) (some (JValue.bool false))
      = none :=
  c9_no_frontend_noop none none rfl rfl "DevToolsAPI.streamWrite"
    (some (JValue.int 7)) (some (JValue.str "data")) (some (JValue.bool false))

/-- C10: a protocol event arriving from the inspected target while the
frontend has not signaled load completion is silently discarded: no
frontend call is made and the session state is left unchanged — nothing is
queued, so such events are lost even if the frontend loads later. -/
theorem c10_events_before_load_dropped (s : ProtocolSessionState)
    (h : s.frontendLoaded = false) (msg : List Char) :
    onDispatchProtocolMessage s msg = (s, []) := by
  simp [onDispatchProtocolMessage, dispatchProtocolMessage, h]

/-- C10 (witness): a concrete event against a not-yet-loaded frontend. -/
theorem c10_events_before_load_dropped_witness :
    onDispatchProtocolMessage { frontendLoaded := false } ['x'] =
      ({ frontendLoaded := false }, []) :=
  c10_events_before_load_dropped { frontendLoaded := false } rfl ['x']

end Electron
